import Mathlib

/-!
Verification of the `perfect-map` library (files `src/lib.rs` and
`src/keyless.rs`): a minimal-perfect-hash-backed immutable map in two
variants, `PerfectMap` (key-retaining) and `KeylessPerfectMap`.

The external MPHF primitive `ph::fmph::GOFunction` is out of scope of the
repository; it is modelled abstractly as a wrapped `K → Option Nat`
evaluation function (`GOFunction.get` mirrors `GOFunction::get`), and the
construction routines take the already-built function as a parameter.
Theorems about member-key lookups hypothesise the primitive's documented
contract (`IsMPH`): on the construction keys the function is total,
in-range and injective.

Rust panics (assert failure, `Option::unwrap`, out-of-bounds slice write)
are modelled by `Option`-valued constructors returning `none`; the
`set_len` step that declares the out-of-order-written buffer initialized
is modelled by writing into a buffer of `Option`-wrapped slots and
unwrapping it at the end (`assumeInit`), so that reading a never-written
slot is visible as a `none` outcome instead of undefined behavior.
-/

/-- Abstract model of the external `ph::fmph::GOFunction`: only its
evaluation behavior `get : &K -> Option<u64>` matters to this crate. -/
structure GOFunction (K : Type) where
  get : K → Option Nat

/-- Model of `PerfectMap<K, V>` from `src/lib.rs`: hash function, permuted
values buffer, and the (possibly empty) permuted keys buffer. -/
structure PerfectMap (K V : Type) where
  function : GOFunction K
  values : List V
  keys : List K

/-- Model of `KeylessPerfectMap<K, V>` from `src/keyless.rs`: hash function
and permuted values buffer only (the `keys: PhantomData<K>` field is
zero-sized and carries no data). -/
structure KeylessPerfectMap (K V : Type) where
  function : GOFunction K
  values : List V

/-- The documented contract of the external MPHF primitive on the key set it
was built from: evaluation succeeds with an in-range slot for every
construction key, and is injective on the construction keys. -/
structure IsMPH {K : Type} (hasher : GOFunction K) (keys : List K) : Prop where
  mem_some : ∀ k ∈ keys, ∃ i, hasher.get k = some i ∧ i < keys.length
  inj : ∀ k₁ ∈ keys, ∀ k₂ ∈ keys, hasher.get k₁ = hasher.get k₂ → k₁ = k₂

/-- The write pass shared by all constructors (`lib.rs` lines 86-89,
`keyless.rs` lines 37-40): for each (key, value) pair in input order,
evaluate the hash function (`.unwrap()` = `none` on failure), and write
`payload k u` into that slot of the buffer (a write beyond the buffer's
capacity is a panic = `none`).  `payload` is `fun _ u => conv u` for the
values buffer (modelling `v.into()`) and `fun k _ => k` for the keys
buffer. -/
def writeSlots {K U A : Type} (hasher : GOFunction K) (payload : K → U → A) :
    List (K × U) → List (Option A) → Option (List (Option A))
  | [], buf => some buf
  | (k, u) :: rest, buf =>
    match hasher.get k with
    | none => none
    | some idx =>
      if idx < buf.length then
        writeSlots hasher payload rest (buf.set idx (some (payload k u)))
      else none

/-- The two-buffer write pass of `new_preserve_keys` (`lib.rs` lines
114-118): one loop writing the value and the key into the same computed
slot of two same-capacity buffers. -/
def writeSlots2 {K U V : Type} (hasher : GOFunction K) (pv : K → U → V) (pk : K → U → K) :
    List (K × U) → List (Option V) → List (Option K) → Option (List (Option V) × List (Option K))
  | [], bv, bk => some (bv, bk)
  | (k, u) :: rest, bv, bk =>
    match hasher.get k with
    | none => none
    | some idx =>
      if idx < bv.length then
        writeSlots2 hasher pv pk rest (bv.set idx (some (pv k u))) (bk.set idx (some (pk k u)))
      else none

/-- Model of the unsafe `set_len(map_len)` step: the buffer is declared
fully initialized.  Reading an unwritten (`none`) slot is undefined
behavior in the source; here it surfaces as a `none` result. -/
def assumeInit {A : Type} : List (Option A) → Option (List A)
  | [] => some []
  | none :: _ => none
  | some a :: rest => (assumeInit rest).map (a :: ·)

/-- Model of `PerfectMap::new` (`lib.rs` lines 75-100): assert the length
precondition, run the write pass over a fresh buffer of `values.len()`
slots, declare it initialized, and return a map with an empty keys
buffer.  `conv` models the `U: Into<V>` conversion; `hasher` stands for
the `GOFunction` built externally from `keys`. -/
def PerfectMap.new? {K U V : Type} (hasher : GOFunction K) (conv : U → V)
    (keys : List K) (values : List U) : Option (PerfectMap K V) :=
  if keys.length = values.length then
    match writeSlots hasher (fun _ u => conv u) (keys.zip values)
        (List.replicate values.length none) with
    | some buf =>
      match assumeInit buf with
      | some vs => some ⟨hasher, vs, []⟩
      | none => none
    | none => none
  else none

/-- Model of `PerfectMap::new_preserve_keys` (`lib.rs` lines 102-130):
same as `new` but the keys are permuted into a second buffer by the same
slot assignment. -/
def PerfectMap.newPreserveKeys? {K U V : Type} (hasher : GOFunction K) (conv : U → V)
    (keys : List K) (values : List U) : Option (PerfectMap K V) :=
  if keys.length = values.length then
    match writeSlots2 hasher (fun _ u => conv u) (fun k _ => k) (keys.zip values)
        (List.replicate values.length none) (List.replicate values.length none) with
    | some (bv, bk) =>
      match assumeInit bv, assumeInit bk with
      | some vs, some ks => some ⟨hasher, vs, ks⟩
      | _, _ => none
    | none => none
  else none

/-- Model of `KeylessPerfectMap::new` (`keyless.rs` lines 26-51): identical
value permutation, no keys buffer. -/
def KeylessPerfectMap.new? {K U V : Type} (hasher : GOFunction K) (conv : U → V)
    (keys : List K) (values : List U) : Option (KeylessPerfectMap K V) :=
  if keys.length = values.length then
    match writeSlots hasher (fun _ u => conv u) (keys.zip values)
        (List.replicate values.length none) with
    | some buf =>
      match assumeInit buf with
      | some vs => some ⟨hasher, vs⟩
      | none => none
    | none => none
  else none

/-- Model of `PerfectMap::get` (`lib.rs` lines 133-137):
`self.function.get(key).and_then(|v| self.values.get(v as usize))`. -/
def PerfectMap.get {K V : Type} (M : PerfectMap K V) (key : K) : Option V :=
  (M.function.get key).bind (fun v => M.values[v]?)

/-- Model of `KeylessPerfectMap::get_unchecked` (`keyless.rs` lines 54-62),
written with `and_then` in the source. -/
def KeylessPerfectMap.get_unchecked {K V : Type} (M : KeylessPerfectMap K V) (key : K) :
    Option V :=
  (M.function.get key).bind (fun v => M.values[v]?)

/-- Model of `KeylessPerfectMap::get` (`keyless.rs` lines 64-77), written
with an explicit `match` in the source. -/
def KeylessPerfectMap.get {K V : Type} (M : KeylessPerfectMap K V) (key : K) : Option V :=
  match M.function.get key with
  | some idx => M.values[idx]?
  | none => none

/-- Model of `Index::index` for `PerfectMap` (`lib.rs` lines 144-160):
`self.get(key).expect("no entry found for key")`; the panic is modelled
as an `Except.error` carrying the panic message. -/
def PerfectMap.index {K V : Type} (M : PerfectMap K V) (key : K) : Except String V :=
  match M.get key with
  | some v => Except.ok v
  | none => Except.error "no entry found for key"

/-- Model of `Index::index` for `KeylessPerfectMap` (`keyless.rs` lines
88-104), sugar over the checked `get`. -/
def KeylessPerfectMap.index {K V : Type} (M : KeylessPerfectMap K V) (key : K) :
    Except String V :=
  match M.get key with
  | some v => Except.ok v
  | none => Except.error "no entry found for key"

/-- The sequence of slot indices the write pass writes, in input order:
`hasher.get(&k).unwrap()` for each key (`none` when some unwrap panics). -/
def evalAll {K : Type} (hasher : GOFunction K) : List K → Option (List Nat)
  | [] => some []
  | k :: rest =>
    match hasher.get k with
    | none => none
    | some i => (evalAll hasher rest).map (i :: ·)

/-- A concrete two-key hash function over `Nat`, used to instantiate
hypotheses in witness theorems. -/
def tHasher : GOFunction Nat :=
  ⟨fun k => if k = 0 then some 0 else if k = 1 then some 1 else none⟩

/-- The payloads serde field values can take in the two maps' encodings: a
values sequence (`Vec<V>`), a keys sequence (`Vec<K>`), a byte buffer
(`Vec<u8>`, the externally-serialized hash function), and the unit value
produced by serializing the keyless variant's `PhantomData` keys field.
Reading a field at the wrong payload shape is a deserialization type
error, as in any self-describing serde format. -/
inductive FieldValue (K V : Type) where
  | vlist : List V → FieldValue K V
  | klist : List K → FieldValue K V
  | bytes : List Nat → FieldValue K V
  | unit : FieldValue K V

/-- The deserialization errors the two visitors produce, mirroring the
serde error constructors used in the source. -/
inductive DeError where
  | invalidLength : Nat → DeError
  | unknownField : String → DeError
  | duplicateField : String → DeError
  | missingField : String → DeError
  | custom : String → DeError
  | typeMismatch : DeError

/-- Model of `PerfectMap::serialize` (`lib.rs` lines 163-179): a
three-field struct `values`, `keys`, `function` in that order, the
function field being the byte buffer produced by the external
primitive's `write` (modelled by the parameter `fwrite`). -/
def PerfectMap.encodeFields {K V : Type} (fwrite : GOFunction K → List Nat)
    (M : PerfectMap K V) : List (String × FieldValue K V) :=
  [("values", FieldValue.vlist M.values), ("keys", FieldValue.klist M.keys),
    ("function", FieldValue.bytes (fwrite M.function))]

/-- Model of `KeylessPerfectMap::serialize` (`keyless.rs` lines 106-125):
also three fields `values`, `keys`, `function` in that order, but the
`keys` field serializes `PhantomData`, i.e. the unit placeholder. -/
def KeylessPerfectMap.encodeFields {K V : Type} (fwrite : GOFunction K → List Nat)
    (M : KeylessPerfectMap K V) : List (String × FieldValue K V) :=
  [("values", FieldValue.vlist M.values), ("keys", FieldValue.unit),
    ("function", FieldValue.bytes (fwrite M.function))]

/-- Model of `PerfectMapVisitor::visit_seq` in `lib.rs` (lines 205-215):
positional decoding reads `values`, then `keys`, then the function bytes,
then parses the bytes with the external primitive (`fread`). -/
def PerfectMap.visitSeq {K V : Type} (fread : List Nat → Option (GOFunction K)) :
    List (FieldValue K V) → Except DeError (PerfectMap K V)
  | [] => Except.error (DeError.invalidLength 0)
  | e0 :: rest0 =>
    match e0 with
    | FieldValue.vlist vs =>
      match rest0 with
      | [] => Except.error (DeError.invalidLength 1)
      | e1 :: rest1 =>
        match e1 with
        | FieldValue.klist ks =>
          match rest1 with
          | [] => Except.error (DeError.invalidLength 2)
          | e2 :: _ =>
            match e2 with
            | FieldValue.bytes fb =>
              match fread fb with
              | some f => Except.ok ⟨f, vs, ks⟩
              | none => Except.error (DeError.custom
                  "invalid bytes: expected bytes representing a ph::GOFunction")
            | _ => Except.error DeError.typeMismatch
        | _ => Except.error DeError.typeMismatch
    | _ => Except.error DeError.typeMismatch

/-- Model of `PerfectMapVisitor::visit_map` in `lib.rs` (lines 217-250):
named decoding folds over the record's fields; the `Field` identifier
accepts `values`, `keys` and `function`, any other name is an
unknown-field error, a repeated field is a duplicate-field error; at the
end `function`, `values` and `keys` are required in that checking order,
and the function bytes are parsed by the external primitive. -/
def PerfectMap.visitMap {K V : Type} (fread : List Nat → Option (GOFunction K)) :
    List (String × FieldValue K V) → Option (List V) → Option (List K) →
      Option (List Nat) → Except DeError (PerfectMap K V)
  | [], avals, akeys, abytes =>
    match abytes with
    | none => Except.error (DeError.missingField "function")
    | some fb =>
      match avals with
      | none => Except.error (DeError.missingField "values")
      | some vs =>
        match akeys with
        | none => Except.error (DeError.missingField "keys")
        | some ks =>
          match fread fb with
          | some f => Except.ok ⟨f, vs, ks⟩
          | none => Except.error (DeError.custom
              "invalid bytes: expected bytes representing a ph::GOFunction")
  | (name, v) :: rest, avals, akeys, abytes =>
    if name = "function" then
      match abytes with
      | some _ => Except.error (DeError.duplicateField "function")
      | none =>
        match v with
        | FieldValue.bytes fb => PerfectMap.visitMap fread rest avals akeys (some fb)
        | _ => Except.error DeError.typeMismatch
    else if name = "values" then
      match avals with
      | some _ => Except.error (DeError.duplicateField "values")
      | none =>
        match v with
        | FieldValue.vlist vs => PerfectMap.visitMap fread rest (some vs) akeys abytes
        | _ => Except.error DeError.typeMismatch
    else if name = "keys" then
      match akeys with
      | some _ => Except.error (DeError.duplicateField "keys")
      | none =>
        match v with
        | FieldValue.klist ks => PerfectMap.visitMap fread rest avals (some ks) abytes
        | _ => Except.error DeError.typeMismatch
    else Except.error (DeError.unknownField name)

/-- Model of `PerfectMapVisitor::visit_seq` in `keyless.rs` (lines
156-178): positional decoding reads `values` and then immediately the
function bytes — only two fields. -/
def KeylessPerfectMap.visitSeq {K V : Type} (fread : List Nat → Option (GOFunction K)) :
    List (FieldValue K V) → Except DeError (KeylessPerfectMap K V)
  | [] => Except.error (DeError.invalidLength 0)
  | e0 :: rest0 =>
    match e0 with
    | FieldValue.vlist vs =>
      match rest0 with
      | [] => Except.error (DeError.invalidLength 1)
      | e1 :: _ =>
        match e1 with
        | FieldValue.bytes fb =>
          match fread fb with
          | some f => Except.ok ⟨f, vs⟩
          | none => Except.error (DeError.custom
              "invalid bytes: expected bytes representing a ph::GOFunction")
        | _ => Except.error DeError.typeMismatch
    | _ => Except.error DeError.typeMismatch

/-- Model of `PerfectMapVisitor::visit_map` in `keyless.rs` (lines
180-219): the keyless `Field` identifier accepts only `values` and
`function`; every other name — `keys` included — is an unknown-field
error. -/
def KeylessPerfectMap.visitMap {K V : Type} (fread : List Nat → Option (GOFunction K)) :
    List (String × FieldValue K V) → Option (List V) → Option (List Nat) →
      Except DeError (KeylessPerfectMap K V)
  | [], avals, abytes =>
    match abytes with
    | none => Except.error (DeError.missingField "function")
    | some fb =>
      match avals with
      | none => Except.error (DeError.missingField "values")
      | some vs =>
        match fread fb with
        | some f => Except.ok ⟨f, vs⟩
        | none => Except.error (DeError.custom
            "invalid bytes: expected bytes representing a ph::GOFunction")
  | (name, v) :: rest, avals, abytes =>
    if name = "function" then
      match abytes with
      | some _ => Except.error (DeError.duplicateField "function")
      | none =>
        match v with
        | FieldValue.bytes fb => KeylessPerfectMap.visitMap fread rest avals (some fb)
        | _ => Except.error DeError.typeMismatch
    else if name = "values" then
      match avals with
      | some _ => Except.error (DeError.duplicateField "values")
      | none =>
        match v with
        | FieldValue.vlist vs => KeylessPerfectMap.visitMap fread rest (some vs) abytes
        | _ => Except.error DeError.typeMismatch
    else Except.error (DeError.unknownField name)

/-- A trivial concrete byte-writer for the abstract function-serialization
parameter, used in concrete instantiations. -/
def tFwrite : GOFunction Nat → List Nat := fun _ => [0]

/-- A trivial concrete byte-reader matching `tFwrite` on `tHasher`. -/
def tFread : List Nat → Option (GOFunction Nat) := fun _ => some tHasher

/-- A concrete key-retaining map for round-trip evaluation. -/
def tRetMap : PerfectMap Nat Nat := ⟨tHasher, [10, 20], [0, 1]⟩

/-- A concrete four-slot hash function. -/
def tHasher4 : GOFunction Nat := ⟨fun k => if k < 4 then some k else none⟩

/-- A concrete keyless map with the spec's four-value scenario. -/
def tKeylessMap4 : KeylessPerfectMap Nat Nat := ⟨tHasher4, [1, 2, 3, 4]⟩

/-- A concrete keyless two-value map. -/
def tKeylessMap : KeylessPerfectMap Nat Nat := ⟨tHasher, [7, 8]⟩

/-- Claim C4: the keyless checked `get` is behaviorally identical to
`get_unchecked` (neither compares keys), and the key-retaining `get`
never consults the retained keys buffer: its result is unchanged under
replacing the keys buffer. -/
theorem keyless_get_eq_get_unchecked {K V : Type} (M : KeylessPerfectMap K V) (q : K)
    (f : GOFunction K) (vs : List V) (ks ks2 : List K) (q2 : K) :
    M.get q = M.get_unchecked q ∧
    (PerfectMap.mk f vs ks).get q2 = (PerfectMap.mk f vs ks2).get q2 := by
  constructor
  · unfold KeylessPerfectMap.get KeylessPerfectMap.get_unchecked
    cases M.function.get q <;> rfl
  · rfl

/-- Claim C5: construction with keys and values of unequal lengths panics
(modelled as `none`) in every constructor of both variants; no map value
is returned (and, by the structure of the definitions, the `none` branch
is taken before any buffer is built). -/
theorem new_length_mismatch_panics {K U V : Type} (hasher : GOFunction K) (conv : U → V)
    (keys : List K) (values : List U) (h : keys.length ≠ values.length) :
    PerfectMap.new? hasher conv keys values = none ∧
    PerfectMap.newPreserveKeys? hasher conv keys values = none ∧
    KeylessPerfectMap.new? hasher conv keys values = none := by
  refine ⟨?_, ?_, ?_⟩ <;>
    simp [PerfectMap.new?, PerfectMap.newPreserveKeys?, KeylessPerfectMap.new?, h]

/-- Witness for C5: the spec's concrete scenario, 3 keys against 2 values. -/
theorem new_length_mismatch_panics_witness :
    PerfectMap.new? tHasher (fun u : Nat => u) [0, 1, 2] [10, 20] = none ∧
    PerfectMap.newPreserveKeys? tHasher (fun u : Nat => u) [0, 1, 2] [10, 20] = none ∧
    KeylessPerfectMap.new? tHasher (fun u : Nat => u) [0, 1, 2] [10, 20] = none :=
  new_length_mismatch_panics tHasher (fun u : Nat => u) [0, 1, 2] [10, 20] (by decide)

/-- Claim C7: on any map and any query key, lookup never goes out of
bounds: it returns `none`, or `some v` where `v` is read from a slot
index strictly below the values buffer's length. -/
theorem get_never_out_of_bounds {K V : Type} (M : PerfectMap K V)
    (N : KeylessPerfectMap K V) (q q2 : K) :
    (M.get q = none ∨ ∃ i v, M.function.get q = some i ∧ i < M.values.length ∧
      M.values[i]? = some v ∧ M.get q = some v) ∧
    (N.get q2 = none ∨ ∃ i v, N.function.get q2 = some i ∧ i < N.values.length ∧
      N.values[i]? = some v ∧ N.get q2 = some v ∧ N.get_unchecked q2 = some v) := by
  constructor
  · cases hf : M.function.get q with
    | none => exact Or.inl (by simp [PerfectMap.get, hf])
    | some i =>
      by_cases hi : i < M.values.length
      · exact Or.inr ⟨i, M.values[i], rfl, hi, by simp, by simp [PerfectMap.get, hf]⟩
      · exact Or.inl (by simp [PerfectMap.get, hf, List.getElem?_eq_none (Nat.le_of_not_lt hi)])
  · cases hf : N.function.get q2 with
    | none => exact Or.inl (by simp [KeylessPerfectMap.get, hf])
    | some i =>
      by_cases hi : i < N.values.length
      · exact Or.inr ⟨i, N.values[i], rfl, hi, by simp,
          by simp [KeylessPerfectMap.get, hf],
          by simp [KeylessPerfectMap.get_unchecked, hf]⟩
      · exact Or.inl (by
          simp [KeylessPerfectMap.get, hf, List.getElem?_eq_none (Nat.le_of_not_lt hi)])

/-- Claim C9: for both variants, the indexing accessor agrees with `get`
when `get` hits, and panics with the fixed message
"no entry found for key" when `get` misses. -/
theorem index_eq_get {K V : Type} (M : PerfectMap K V) (N : KeylessPerfectMap K V)
    (q q2 : K) :
    ((∃ v, M.get q = some v ∧ M.index q = Except.ok v) ∨
      (M.get q = none ∧ M.index q = Except.error "no entry found for key")) ∧
    ((∃ v, N.get q2 = some v ∧ N.index q2 = Except.ok v) ∨
      (N.get q2 = none ∧ N.index q2 = Except.error "no entry found for key")) := by
  constructor
  · cases h : M.get q with
    | none => exact Or.inr ⟨rfl, by simp [PerfectMap.index, h]⟩
    | some v => exact Or.inl ⟨v, rfl, by simp [PerfectMap.index, h]⟩
  · cases h : N.get q2 with
    | none => exact Or.inr ⟨rfl, by simp [KeylessPerfectMap.index, h]⟩
    | some v => exact Or.inl ⟨v, rfl, by simp [KeylessPerfectMap.index, h]⟩

lemma writeSlots_sound {K U A : Type} (hasher : GOFunction K) (payload : K → U → A)
    (pairs : List (K × U)) :
    ∀ buf : List (Option A),
      (∀ p ∈ pairs, ∃ i, hasher.get p.1 = some i ∧ i < buf.length) →
      ∃ buf2, writeSlots hasher payload pairs buf = some buf2 ∧ buf2.length = buf.length := by
  induction pairs with
  | nil => exact fun buf _ => ⟨buf, rfl, rfl⟩
  | cons p rest ih =>
    obtain ⟨k, u⟩ := p
    intro buf h
    obtain ⟨i, hi, hlt⟩ := h (k, u) (List.mem_cons_self _ _)
    obtain ⟨buf2, hb, hl⟩ := ih (buf.set i (some (payload k u))) (by
      intro p hp
      obtain ⟨j, hj, hjl⟩ := h p (List.mem_cons_of_mem _ hp)
      exact ⟨j, hj, by simpa using hjl⟩)
    exact ⟨buf2, by simp [writeSlots, hi, hlt, hb], by simpa using hl⟩

lemma writeSlots_frame {K U A : Type} (hasher : GOFunction K) (payload : K → U → A)
    (pairs : List (K × U)) :
    ∀ (buf buf2 : List (Option A)) (j : Nat),
      writeSlots hasher payload pairs buf = some buf2 →
      (∀ p ∈ pairs, hasher.get p.1 ≠ some j) →
      buf2[j]? = buf[j]? := by
  induction pairs with
  | nil => intro buf buf2 j h _; cases h; rfl
  | cons p rest ih =>
    obtain ⟨k, u⟩ := p
    intro buf buf2 j h hne
    cases hget : hasher.get k with
    | none => simp [writeSlots, hget] at h
    | some i =>
      by_cases hlt : i < buf.length
      · simp only [writeSlots, hget, hlt, if_true] at h
        have hij : i ≠ j := fun hy => hne (k, u) (List.mem_cons_self _ _) (hy ▸ hget)
        rw [ih _ _ j h (fun p hp => hne p (List.mem_cons_of_mem _ hp)),
          List.getElem?_set_ne hij]
      · simp [writeSlots, hget, hlt] at h

lemma writeSlots_write {K U A : Type} (hasher : GOFunction K) (payload : K → U → A)
    (pairs : List (K × U)) :
    ∀ (buf buf2 : List (Option A)) (k : K) (u : U) (j : Nat),
      writeSlots hasher payload pairs buf = some buf2 →
      (k, u) ∈ pairs →
      hasher.get k = some j →
      (∀ p ∈ pairs, hasher.get p.1 = some j → p = (k, u)) →
      buf2[j]? = some (some (payload k u)) := by
  induction pairs with
  | nil => intro _ _ _ _ _ _ hmem; cases hmem
  | cons p rest ih =>
    obtain ⟨k0, u0⟩ := p
    intro buf buf2 k u j h hmem hj huniq
    cases hget : hasher.get k0 with
    | none => simp [writeSlots, hget] at h
    | some i =>
      by_cases hlt : i < buf.length
      · simp only [writeSlots, hget, hlt, if_true] at h
        by_cases hr : (k, u) ∈ rest
        · exact ih _ _ k u j h hr hj
            (fun p hp hpj => huniq p (List.mem_cons_of_mem _ hp) hpj)
        · have hhead : (k0, u0) = (k, u) := by
            rcases List.mem_cons.mp hmem with heq | hm
            · exact heq.symm
            · exact absurd hm hr
          obtain ⟨hk0, hu0⟩ := Prod.mk.injEq .. ▸ hhead
          subst hk0; subst hu0
          have hij : i = j := by
            rw [hget] at hj; exact Option.some.injEq .. ▸ hj
          subst hij
          have hframe : ∀ p ∈ rest, hasher.get p.1 ≠ some i := by
            intro p hp hcon
            exact hr (huniq p (List.mem_cons_of_mem _ hp) hcon ▸ hp)
          rw [writeSlots_frame hasher payload rest _ _ i h hframe,
            List.getElem?_set_self hlt]
      · simp [writeSlots, hget, hlt] at h

lemma exists_map_some_of_forall_isSome {A : Type} (buf : List (Option A))
    (h : ∀ x ∈ buf, x.isSome) : ∃ vs : List A, buf = vs.map some := by
  induction buf with
  | nil => exact ⟨[], rfl⟩
  | cons x rest ih =>
    obtain ⟨vs, hvs⟩ := ih (fun y hy => h y (List.mem_cons_of_mem _ hy))
    cases x with
    | none =>
      have := h none (List.mem_cons_self _ _)
      simp at this
    | some a => exact ⟨a :: vs, by simp [hvs]⟩

lemma assumeInit_map_some {A : Type} (vs : List A) : assumeInit (vs.map some) = some vs := by
  induction vs with
  | nil => rfl
  | cons a rest ih => simp [assumeInit, ih]

lemma zip_fst_nodup_eq {α β : Type} :
    ∀ {l1 : List α} {l2 : List β}, l1.Nodup →
      ∀ p q : α × β, p ∈ l1.zip l2 → q ∈ l1.zip l2 → p.1 = q.1 → p = q := by
  intro l1
  induction l1 with
  | nil => intro l2 _ p q hp; simp at hp
  | cons a rest ih =>
    intro l2 hnd p q hp hq hpq
    obtain ⟨p1, p2⟩ := p
    obtain ⟨q1, q2⟩ := q
    simp only at hpq
    cases l2 with
    | nil => simp at hp
    | cons b l2r =>
      simp only [List.zip_cons_cons, List.mem_cons] at hp hq
      rcases hp with hp | hp <;> rcases hq with hq | hq
      · rw [hp, hq]
      · exfalso
        rw [Prod.mk.injEq] at hp
        have hq1 : q1 ∈ rest := (List.of_mem_zip hq).1
        rw [← hpq, hp.1] at hq1
        exact (List.nodup_cons.mp hnd).1 hq1
      · exfalso
        rw [Prod.mk.injEq] at hq
        have hp1 : p1 ∈ rest := (List.of_mem_zip hp).1
        rw [hpq, hq.1] at hp1
        exact (List.nodup_cons.mp hnd).1 hp1
      · exact ih (List.nodup_cons.mp hnd).2 (p1, p2) (q1, q2) hp hq hpq

lemma mph_idxs_spec {K : Type} (hasher : GOFunction K) (keys : List K)
    (hnd : keys.Nodup) (hmph : IsMPH hasher keys) :
    (keys.map fun k => (hasher.get k).getD 0).Nodup ∧
    ∀ j < keys.length, j ∈ keys.map fun k => (hasher.get k).getD 0 := by
  classical
  have hsome : ∀ k ∈ keys, hasher.get k = some ((hasher.get k).getD 0) := by
    intro k hk
    obtain ⟨i, hi, _⟩ := hmph.mem_some k hk
    simp [hi]
  have hnd2 : (keys.map fun k => (hasher.get k).getD 0).Nodup := by
    refine List.Nodup.map_on ?_ hnd
    intro x hx y hy hxy
    exact hmph.inj x hx y hy (by rw [hsome x hx, hsome y hy, hxy])
  refine ⟨hnd2, ?_⟩
  intro j hj
  have hbound : ∀ i ∈ keys.map fun k => (hasher.get k).getD 0, i < keys.length := by
    intro i hi
    obtain ⟨k, hk, hik⟩ := List.mem_map.mp hi
    obtain ⟨i2, hi2, hlt⟩ := hmph.mem_some k hk
    rw [← hik]
    simpa [hi2] using hlt
  have hsub : (keys.map fun k => (hasher.get k).getD 0).toFinset
      ⊆ Finset.range keys.length := by
    intro i hi
    exact Finset.mem_range.mpr (hbound i (List.mem_toFinset.mp hi))
  have hcard : (Finset.range keys.length).card
      ≤ (keys.map fun k => (hasher.get k).getD 0).toFinset.card := by
    rw [Finset.card_range, List.toFinset_card_of_nodup hnd2, List.length_map]
  have heq := Finset.eq_of_subset_of_card_le hsub hcard
  rw [← List.mem_toFinset, heq]
  exact Finset.mem_range.mpr hj

lemma mph_surj {K : Type} (hasher : GOFunction K) (keys : List K)
    (hnd : keys.Nodup) (hmph : IsMPH hasher keys) :
    ∀ j < keys.length, ∃ k ∈ keys, hasher.get k = some j := by
  intro j hj
  obtain ⟨k, hk, hkj⟩ := List.mem_map.mp ((mph_idxs_spec hasher keys hnd hmph).2 j hj)
  obtain ⟨i, hi, _⟩ := hmph.mem_some k hk
  refine ⟨k, hk, ?_⟩
  rw [hi]
  rw [hi] at hkj
  simpa using hkj

lemma evalAll_eq_map {K : Type} (hasher : GOFunction K) (keys : List K)
    (h : ∀ k ∈ keys, (hasher.get k).isSome) :
    evalAll hasher keys = some (keys.map fun k => (hasher.get k).getD 0) := by
  induction keys with
  | nil => rfl
  | cons k rest ih =>
    have hk := h k (List.mem_cons_self _ _)
    cases hg : hasher.get k with
    | none => rw [hg] at hk; simp at hk
    | some i => simp [evalAll, hg, ih (fun y hy => h y (List.mem_cons_of_mem _ hy))]

lemma writeSlots_zip_spec {K U A : Type} (hasher : GOFunction K) (payload : K → U → A)
    (keys : List K) (values : List U) (hlen : keys.length = values.length)
    (hnd : keys.Nodup) (hmph : IsMPH hasher keys) :
    ∃ buf2, writeSlots hasher payload (keys.zip values) (List.replicate values.length none)
        = some buf2 ∧ buf2.length = values.length ∧
      (∀ (i j : Nat) (k : K) (u : U), keys[i]? = some k → values[i]? = some u →
        hasher.get k = some j → buf2[j]? = some (some (payload k u))) ∧
      (∀ x ∈ buf2, x.isSome) := by
  have hsomeAll : ∀ p ∈ keys.zip values, ∃ i, hasher.get p.1 = some i ∧
      i < (List.replicate values.length (none : Option A)).length := by
    intro p hp
    obtain ⟨p1, p2⟩ := p
    obtain ⟨i, hi, hlt⟩ := hmph.mem_some p1 (List.of_mem_zip hp).1
    exact ⟨i, hi, by simpa [← hlen] using hlt⟩
  obtain ⟨buf2, hw, hl⟩ := writeSlots_sound hasher payload (keys.zip values) _ hsomeAll
  have hl2 : buf2.length = values.length := by simpa using hl
  have hwrite : ∀ (i j : Nat) (k : K) (u : U), keys[i]? = some k → values[i]? = some u →
      hasher.get k = some j → buf2[j]? = some (some (payload k u)) := by
    intro i j k u hk hu hj
    have hkmem : k ∈ keys := List.getElem?_mem hk
    have hmem : (k, u) ∈ keys.zip values :=
      List.getElem?_mem (List.getElem?_zip_eq_some.mpr ⟨hk, hu⟩)
    refine writeSlots_write hasher payload (keys.zip values) _ _ k u j hw hmem hj ?_
    intro p hp hpj
    obtain ⟨p1, p2⟩ := p
    have hp1 : p1 ∈ keys := (List.of_mem_zip hp).1
    have hp1k : p1 = k := hmph.inj p1 hp1 k hkmem (by rw [hpj, hj])
    exact zip_fst_nodup_eq hnd (p1, p2) (k, u) hp hmem hp1k
  refine ⟨buf2, hw, hl2, hwrite, ?_⟩
  intro x hx
  obtain ⟨j, hj⟩ := List.mem_iff_getElem?.mp hx
  have hjlt : j < keys.length := by
    rw [hlen, ← hl2]
    exact (List.getElem?_eq_some_iff.mp hj).1
  obtain ⟨k, hk, hkj⟩ := mph_surj hasher keys hnd hmph j hjlt
  obtain ⟨i, hik⟩ := List.mem_iff_getElem?.mp hk
  have hilt : i < values.length := by
    rw [← hlen]
    exact (List.getElem?_eq_some_iff.mp hik).1
  have hslot := hwrite i j k (values[i]) hik (List.getElem?_eq_getElem hilt) hkj
  rw [hj] at hslot
  rw [Option.some.inj hslot]
  rfl

lemma new?_eq_some {K U V : Type} (hasher : GOFunction K) (conv : U → V)
    (keys : List K) (values : List U) (hnd : keys.Nodup)
    (hlen : keys.length = values.length) (hmph : IsMPH hasher keys) :
    ∃ vs : List V, PerfectMap.new? hasher conv keys values = some ⟨hasher, vs, []⟩ ∧
      KeylessPerfectMap.new? hasher conv keys values = some ⟨hasher, vs⟩ ∧
      vs.length = values.length ∧
      (∀ (i j : Nat) (k : K) (u : U), keys[i]? = some k → values[i]? = some u →
        hasher.get k = some j → vs[j]? = some (conv u)) := by
  obtain ⟨buf2, hw, hl, hspec, hall⟩ :=
    writeSlots_zip_spec hasher (fun _ u => conv u) keys values hlen hnd hmph
  obtain ⟨vs, hvs⟩ := exists_map_some_of_forall_isSome buf2 hall
  have hinit : assumeInit buf2 = some vs := hvs ▸ assumeInit_map_some vs
  have hvl : vs.length = values.length := by
    rw [← hl, hvs, List.length_map]
  refine ⟨vs, ?_, ?_, hvl, ?_⟩
  · simp [PerfectMap.new?, hlen, hw, hinit]
  · simp [KeylessPerfectMap.new?, hlen, hw, hinit]
  · intro i j k u hk hu hj
    have hslot := hspec i j k u hk hu hj
    rw [hvs, List.getElem?_map] at hslot
    cases hvj : vs[j]? with
    | none => rw [hvj] at hslot; simp at hslot
    | some w =>
      rw [hvj] at hslot
      have hw2 : w = conv u := by simpa using hslot
      rw [hw2]

lemma tHasher_mph : IsMPH tHasher [0, 1] := by
  constructor
  · intro k hk
    rcases List.mem_cons.mp hk with rfl | hk2
    · exact ⟨0, rfl, by decide⟩
    · rcases List.mem_cons.mp hk2 with rfl | hk3
      · exact ⟨1, rfl, by decide⟩
      · cases hk3
  · decide

/-- Claim C1: for distinct keys and aligned values, building a map with
`new` (either variant) and looking up the key at input position `i`
returns `some` of the (converted) value at position `i`. -/
theorem new_get_roundtrip {K U V : Type} (hasher : GOFunction K) (conv : U → V)
    (keys : List K) (values : List U) (hnd : keys.Nodup)
    (hlen : keys.length = values.length) (hmph : IsMPH hasher keys)
    (i : Nat) (k : K) (u : U) (hk : keys[i]? = some k) (hu : values[i]? = some u) :
    (PerfectMap.new? hasher conv keys values).map (fun M => M.get k)
        = some (some (conv u)) ∧
    (KeylessPerfectMap.new? hasher conv keys values).map (fun M => M.get k)
        = some (some (conv u)) := by
  obtain ⟨vs, hnew, hknew, hvl, hspec⟩ :=
    new?_eq_some hasher conv keys values hnd hlen hmph
  obtain ⟨j, hj, hjlt⟩ := hmph.mem_some k (List.getElem?_mem hk)
  have hvj := hspec i j k u hk hu hj
  constructor
  · rw [hnew]
    simp [PerfectMap.get, hj, hvj]
  · rw [hknew]
    simp [KeylessPerfectMap.get, hj, hvj]

/-- Witness for C1 at a concrete two-entry map. -/
theorem new_get_roundtrip_witness :
    (PerfectMap.new? tHasher (fun u : Nat => u) [0, 1] [10, 20]).map (fun M => M.get 1)
        = some (some 20) ∧
    (KeylessPerfectMap.new? tHasher (fun u : Nat => u) [0, 1] [10, 20]).map
        (fun M => M.get 1) = some (some 20) :=
  new_get_roundtrip tHasher (fun u : Nat => u) [0, 1] [10, 20] (by decide) (by decide)
    tHasher_mph 1 1 20 (by decide) (by decide)

/-- Claim C6: building from N distinct keys yields a values buffer of
length exactly N (both variants), and the permutation pass writes each of
the N slots exactly once: the sequence of slot indices written contains
every slot `j < N` exactly once. -/
theorem new_bijection {K U V : Type} (hasher : GOFunction K) (conv : U → V)
    (keys : List K) (values : List U) (hnd : keys.Nodup)
    (hlen : keys.length = values.length) (hmph : IsMPH hasher keys)
    (j : Nat) (hj : j < keys.length) :
    (PerfectMap.new? hasher conv keys values).map (fun M => M.values.length)
        = some keys.length ∧
    (KeylessPerfectMap.new? hasher conv keys values).map (fun M => M.values.length)
        = some keys.length ∧
    (evalAll hasher keys).map (fun idxs => idxs.count j) = some 1 := by
  classical
  obtain ⟨vs, hnew, hknew, hvl, _⟩ :=
    new?_eq_some hasher conv keys values hnd hlen hmph
  have hlen2 : vs.length = keys.length := by rw [hvl, hlen]
  refine ⟨by rw [hnew]; simp [hlen2], by rw [hknew]; simp [hlen2], ?_⟩
  have hsome : ∀ k ∈ keys, (hasher.get k).isSome := by
    intro k hk
    obtain ⟨i, hi, _⟩ := hmph.mem_some k hk
    simp [hi]
  rw [evalAll_eq_map hasher keys hsome]
  obtain ⟨hnd2, hmem⟩ := mph_idxs_spec hasher keys hnd hmph
  exact congrArg some (List.count_eq_one_of_mem hnd2 (hmem j hj))

/-- Witness for C6 at a concrete two-entry map. -/
theorem new_bijection_witness :
    (PerfectMap.new? tHasher (fun u : Nat => u) [0, 1] [10, 20]).map
        (fun M => M.values.length) = some 2 ∧
    (KeylessPerfectMap.new? tHasher (fun u : Nat => u) [0, 1] [10, 20]).map
        (fun M => M.values.length) = some 2 ∧
    (evalAll tHasher [0, 1]).map (fun idxs => idxs.count 0) = some 1 :=
  new_bijection tHasher (fun u : Nat => u) [0, 1] [10, 20] (by decide) (by decide)
    tHasher_mph 0 (by decide)

lemma writeSlots2_eq {K U V : Type} (hasher : GOFunction K) (pv : K → U → V)
    (pk : K → U → K) (pairs : List (K × U)) :
    ∀ (bv : List (Option V)) (bk : List (Option K)), bv.length = bk.length →
      writeSlots2 hasher pv pk pairs bv bk =
        match writeSlots hasher pv pairs bv, writeSlots hasher pk pairs bk with
        | some a, some b => some (a, b)
        | _, _ => none := by
  induction pairs with
  | nil => intro bv bk _; rfl
  | cons p rest ih =>
    obtain ⟨k, u⟩ := p
    intro bv bk hlen
    cases hg : hasher.get k with
    | none => simp [writeSlots2, writeSlots, hg]
    | some i =>
      by_cases hlt : i < bv.length
      · have hlt2 : i < bk.length := hlen ▸ hlt
        simp only [writeSlots2, writeSlots, hg, hlt, hlt2, if_true]
        exact ih _ _ (by simp [hlen])
      · have hlt2 : ¬ i < bk.length := hlen ▸ hlt
        simp [writeSlots2, writeSlots, hg, hlt, hlt2]

lemma newPreserveKeys?_eq_some {K U V : Type} (hasher : GOFunction K) (conv : U → V)
    (keys : List K) (values : List U) (hnd : keys.Nodup)
    (hlen : keys.length = values.length) (hmph : IsMPH hasher keys) :
    ∃ (vs : List V) (ks : List K),
      PerfectMap.newPreserveKeys? hasher conv keys values = some ⟨hasher, vs, ks⟩ ∧
      vs.length = values.length ∧ ks.length = values.length ∧
      (∀ (i j : Nat) (k : K) (u : U), keys[i]? = some k → values[i]? = some u →
        hasher.get k = some j → vs[j]? = some (conv u) ∧ ks[j]? = some k) := by
  obtain ⟨bv2, hwv, hlv, hspecv, hallv⟩ :=
    writeSlots_zip_spec hasher (fun _ u => conv u) keys values hlen hnd hmph
  obtain ⟨bk2, hwk, hlk, hspeck, hallk⟩ :=
    writeSlots_zip_spec hasher (fun k _ => k) keys values hlen hnd hmph
  obtain ⟨vs, hvs⟩ := exists_map_some_of_forall_isSome bv2 hallv
  obtain ⟨ks, hks⟩ := exists_map_some_of_forall_isSome bk2 hallk
  have hinitv : assumeInit bv2 = some vs := hvs ▸ assumeInit_map_some vs
  have hinitk : assumeInit bk2 = some ks := hks ▸ assumeInit_map_some ks
  have hvl : vs.length = values.length := by rw [← hlv, hvs, List.length_map]
  have hkl : ks.length = values.length := by rw [← hlk, hks, List.length_map]
  have h2 := writeSlots2_eq hasher (fun _ u => conv u) (fun k _ => k) (keys.zip values)
    (List.replicate values.length none) (List.replicate values.length none) (by simp)
  rw [hwv, hwk] at h2
  refine ⟨vs, ks, ?_, hvl, hkl, ?_⟩
  · simp [PerfectMap.newPreserveKeys?, hlen, h2, hinitv, hinitk]
  · intro i j k u hk hu hj
    constructor
    · have hslot := hspecv i j k u hk hu hj
      rw [hvs, List.getElem?_map] at hslot
      cases hvj : vs[j]? with
      | none => rw [hvj] at hslot; simp at hslot
      | some w =>
        rw [hvj] at hslot
        have hw2 : w = conv u := by simpa using hslot
        rw [hw2]
    · have hslot := hspeck i j k u hk hu hj
      rw [hks, List.getElem?_map] at hslot
      cases hkj : ks[j]? with
      | none => rw [hkj] at hslot; simp at hslot
      | some w =>
        rw [hkj] at hslot
        have hw2 : w = k := by simpa using hslot
        rw [hw2]

/-- Claim C8: in preserve-keys mode the keys are permuted into a second
buffer of the same size by the same slot assignment as the values — the
retained key at a slot is exactly the original key whose value was
permuted there — while the default `new` mode leaves the keys buffer
empty. -/
theorem new_preserve_keys_pairs {K U V : Type} (hasher : GOFunction K) (conv : U → V)
    (keys : List K) (values : List U) (hnd : keys.Nodup)
    (hlen : keys.length = values.length) (hmph : IsMPH hasher keys)
    (i slot : Nat) (k : K) (u : U) (hk : keys[i]? = some k)
    (hu : values[i]? = some u) (hslot : hasher.get k = some slot) :
    (PerfectMap.newPreserveKeys? hasher conv keys values).map (fun M => M.keys.length)
        = some keys.length ∧
    (PerfectMap.newPreserveKeys? hasher conv keys values).map (fun M => M.values.length)
        = some keys.length ∧
    (PerfectMap.newPreserveKeys? hasher conv keys values).map (fun M => M.keys[slot]?)
        = some (some k) ∧
    (PerfectMap.newPreserveKeys? hasher conv keys values).map (fun M => M.values[slot]?)
        = some (some (conv u)) ∧
    (PerfectMap.new? hasher conv keys values).map (fun M => M.keys) = some [] := by
  obtain ⟨vs, ks, hpres, hvl, hkl, hspec⟩ :=
    newPreserveKeys?_eq_some hasher conv keys values hnd hlen hmph
  obtain ⟨vs2, hnew, _, _, _⟩ := new?_eq_some hasher conv keys values hnd hlen hmph
  obtain ⟨hvj, hkj⟩ := hspec i slot k u hk hu hslot
  rw [hpres, hnew]
  exact ⟨by simp [hkl, hlen], by simp [hvl, hlen], by simp [hkj], by simp [hvj], by simp⟩

/-- Witness for C8 at a concrete two-entry map. -/
theorem new_preserve_keys_pairs_witness :
    (PerfectMap.newPreserveKeys? tHasher (fun u : Nat => u) [0, 1] [10, 20]).map
        (fun M => M.keys.length) = some 2 ∧
    (PerfectMap.newPreserveKeys? tHasher (fun u : Nat => u) [0, 1] [10, 20]).map
        (fun M => M.values.length) = some 2 ∧
    (PerfectMap.newPreserveKeys? tHasher (fun u : Nat => u) [0, 1] [10, 20]).map
        (fun M => M.keys[1]?) = some (some 1) ∧
    (PerfectMap.newPreserveKeys? tHasher (fun u : Nat => u) [0, 1] [10, 20]).map
        (fun M => M.values[1]?) = some (some 20) ∧
    (PerfectMap.new? tHasher (fun u : Nat => u) [0, 1] [10, 20]).map
        (fun M => M.keys) = some [] :=
  new_preserve_keys_pairs tHasher (fun u : Nat => u) [0, 1] [10, 20] (by decide)
    (by decide) tHasher_mph 1 1 1 20 (by decide) (by decide) (by decide)

/-- Claim C2 (documents the code bug): the key-retaining map's encoding
decodes back to the identical map in both the named and the positional
representation, but the keyless map's own encoding is rejected by the
keyless decoder — the serialized `keys` placeholder field is an unknown
field to it in the named representation, and misaligns the positional
one — so encode-then-decode fails for the keyless variant. -/
theorem keyless_roundtrip_fails :
    PerfectMap.visitMap tFread (PerfectMap.encodeFields tFwrite tRetMap) none none none
        = Except.ok tRetMap ∧
    PerfectMap.visitSeq tFread ((PerfectMap.encodeFields tFwrite tRetMap).map Prod.snd)
        = Except.ok tRetMap ∧
    KeylessPerfectMap.visitMap tFread
        (KeylessPerfectMap.encodeFields tFwrite tKeylessMap4) none none
        = Except.error (DeError.unknownField "keys") ∧
    KeylessPerfectMap.visitSeq tFread
        ((KeylessPerfectMap.encodeFields tFwrite tKeylessMap4).map Prod.snd)
        = Except.error DeError.typeMismatch :=
  ⟨rfl, rfl, rfl, rfl⟩

/-- Counterexample to Claim C3: the keyless decoder does not accept the
keyless encoder's own `values`/`keys`/`function` record — decoding it by
name stops at the `keys` placeholder field with an unrecognized-field
error rather than accepting the record. -/
theorem keyless_decoder_rejects_keys_field :
    KeylessPerfectMap.visitMap tFread
        (KeylessPerfectMap.encodeFields tFwrite tKeylessMap) none none
      = Except.error (DeError.unknownField "keys") := rfl

/-- Claim C3 (amended): the keyless encoder does emit the fields `values`,
`keys` (unit placeholder), `function` in that order, but the keyless
decoder accepts only the two fields `values` and `function`
(positionally: exactly a values sequence followed by the function
bytes), and rejects every other field name — `keys` included — as an
unrecognized-field error. -/
theorem keyless_codec_shape {K V : Type} (fwrite : GOFunction K → List Nat)
    (fread : List Nat → Option (GOFunction K)) (M : KeylessPerfectMap K V)
    (vs : List V) (fb : List Nat) (f : GOFunction K) (hf : fread fb = some f)
    (name : String) (v : FieldValue K V) (rest : List (String × FieldValue K V))
    (hn1 : name ≠ "values") (hn2 : name ≠ "function") :
    (KeylessPerfectMap.encodeFields fwrite M).map Prod.fst
        = ["values", "keys", "function"] ∧
    KeylessPerfectMap.visitMap fread
        [("values", FieldValue.vlist vs), ("function", FieldValue.bytes fb)] none none
        = Except.ok ⟨f, vs⟩ ∧
    KeylessPerfectMap.visitSeq fread [FieldValue.vlist vs, FieldValue.bytes fb]
        = Except.ok ⟨f, vs⟩ ∧
    KeylessPerfectMap.visitMap fread ((name, v) :: rest) none none
        = Except.error (DeError.unknownField name) := by
  refine ⟨rfl, ?_, ?_, ?_⟩
  · simp [KeylessPerfectMap.visitMap, hf]
  · simp [KeylessPerfectMap.visitSeq, hf]
  · simp [KeylessPerfectMap.visitMap, hn1, hn2]

/-- Witness for the amended C3 at a concrete record. -/
theorem keyless_codec_shape_witness :
    (KeylessPerfectMap.encodeFields tFwrite tKeylessMap).map Prod.fst
        = ["values", "keys", "function"] ∧
    KeylessPerfectMap.visitMap tFread
        [("values", FieldValue.vlist [7, 8]), ("function", FieldValue.bytes [0])] none none
        = Except.ok ⟨tHasher, [7, 8]⟩ ∧
    KeylessPerfectMap.visitSeq tFread [FieldValue.vlist [7, 8], FieldValue.bytes [0]]
        = Except.ok ⟨tHasher, [7, 8]⟩ ∧
    KeylessPerfectMap.visitMap tFread
        [("keys", (FieldValue.unit : FieldValue Nat Nat))] none none
        = Except.error (DeError.unknownField "keys") :=
  keyless_codec_shape tFwrite tFread tKeylessMap [7, 8] [0] tHasher rfl "keys"
    FieldValue.unit [] (by decide) (by decide)

/-- Claim C10: neither visitor compares the decoded buffers' lengths with
the decoded function's slot count — decoding succeeds for any buffer
lengths whenever the function bytes parse — and `get` on such a map
returns `none` for a key the function maps to a slot at or beyond the
values buffer's length. -/
theorem deserialize_no_length_check {K V : Type}
    (fread : List Nat → Option (GOFunction K)) (vs : List V) (ks : List K)
    (fb : List Nat) (f : GOFunction K) (hf : fread fb = some f)
    (k : K) (i : Nat) (hk : f.get k = some i) (hge : vs.length ≤ i) :
    PerfectMap.visitMap fread
        [("values", FieldValue.vlist vs), ("keys", FieldValue.klist ks),
          ("function", FieldValue.bytes fb)] none none none
        = Except.ok ⟨f, vs, ks⟩ ∧
    (PerfectMap.mk f vs ks).get k = none ∧
    KeylessPerfectMap.visitMap fread
        [("values", FieldValue.vlist vs), ("function", FieldValue.bytes fb)] none none
        = Except.ok ⟨f, vs⟩ ∧
    (KeylessPerfectMap.mk f vs).get k = none := by
  refine ⟨?_, ?_, ?_, ?_⟩
  · simp [PerfectMap.visitMap, hf]
  · simp [PerfectMap.get, hk, List.getElem?_eq_none hge]
  · simp [KeylessPerfectMap.visitMap, hf]
  · simp [KeylessPerfectMap.get, hk, List.getElem?_eq_none hge]

/-- Witness for C10: an empty values buffer decoded against a function
that maps key 1 to slot 1. -/
theorem deserialize_no_length_check_witness :
    PerfectMap.visitMap tFread
        [("values", FieldValue.vlist ([] : List Nat)),
          ("keys", FieldValue.klist ([] : List Nat)),
          ("function", FieldValue.bytes [0])] none none none
        = Except.ok ⟨tHasher, [], []⟩ ∧
    (PerfectMap.mk tHasher ([] : List Nat) ([] : List Nat)).get 1 = none ∧
    KeylessPerfectMap.visitMap tFread
        [("values", FieldValue.vlist ([] : List Nat)),
          ("function", FieldValue.bytes [0])] none none
        = Except.ok ⟨tHasher, []⟩ ∧
    (KeylessPerfectMap.mk tHasher ([] : List Nat)).get 1 = none :=
  deserialize_no_length_check tFread [] [] [0] tHasher rfl 1 1 rfl (by decide)
